import Mathlib

/-!
Verification of the hybrid search service (backend/app/search.py).

The data model and every operation below are shallow embeddings of the
Python source: posts are records, SQL result sets are lists, Python dicts
keyed by post id are association lists with in-place update semantics,
Python floats are modelled as rationals (reals for cosine similarity,
which takes square roots), and the token-search engine plus the language
collaborators are abstract parameters.
-/

namespace XaiSearch

/-- A post row, with the fields selected by the search queries in
backend/app/search.py.  An optional vector-similarity score is attached by
the vector searcher. -/
structure Post where
  id : Nat
  post_id : String
  author_username : String
  author_display_name : String
  content : String
  likes : Int
  retweets : Int
  replies : Int
  views : Int
  posted_at : Option Int
  scraped_at : Option Int
  ai_description : String
  ai_topics : List String
  ai_sentiment : Option String
  ai_entities : List String
  has_media : Bool
  media_urls : List String
  similarity_score : Option ℚ := none
deriving DecidableEq

/-! ## Rank fusion merger (SearchService._merge_results) -/

/-- An entry of the merge dictionary: the post dict augmented with the
rank markers and the combined fusion score. -/
structure Merged where
  post : Post
  fts_rank : Option Nat
  vector_rank : Option Nat
  combined_score : ℚ
deriving DecidableEq

/-- Python dict assignment keyed by post id: replace the entry in place if
the key is present, append otherwise (insertion order is preserved, as for
a Python dict). -/
def updEntry (k : String) (v : Merged) : List Merged → List Merged
  | [] => [v]
  | e :: es => if e.post.post_id = k then v :: es else e :: updEntry k v es

/-- The entry written for the full-text result at 0-based position i:
position-based score 1/(i+1). -/
def fEnt (ip : Nat × Post) : Merged :=
  { post := ip.2, fts_rank := some ip.1, vector_rank := none,
    combined_score := 1 / ((ip.1 : ℚ) + 1) }

/-- First phase of the merge: insert every full-text result with its
reciprocal-rank score. -/
def addFtsPosts (fts : List Post) : List Merged :=
  fts.enum.foldl (fun m ip => updEntry ip.2.post_id (fEnt ip) m) []

/-- The value written for the vector result at position j: if the id was
already present, average the reciprocal full-text rank score with the
similarity and update the stored similarity score; otherwise a new entry
with the discounted score similarity * 0.8. -/
def vecUpd (L : Nat) (cur : Option Merged) (jp : Nat × Post) : Merged :=
  let vs : ℚ := jp.2.similarity_score.getD 0
  match cur with
  | some e =>
      { e with
        combined_score := (1 / ((e.fts_rank.getD L : ℚ) + 1) + vs) / 2,
        post := { e.post with similarity_score := some vs } }
  | none =>
      { post := jp.2, fts_rank := none, vector_rank := some jp.1,
        combined_score := vs * 0.8 }

/-- Dictionary lookup predicate: the entry whose post id is k. -/
def keyIs (k : String) (e : Merged) : Bool := decide (e.post.post_id = k)

/-- Second phase of the merge: fold one vector result into the map. -/
def addVecPost (L : Nat) (m : List Merged) (jp : Nat × Post) : List Merged :=
  updEntry jp.2.post_id (vecUpd L (m.find? (keyIs jp.2.post_id)) jp) m

/-- The entry phase two writes for a vector result whose id is new
(identical to the none branch of vecUpd). -/
def vEnt (jp : Nat × Post) : Merged :=
  { post := jp.2, fts_rank := none, vector_rank := some jp.1,
    combined_score := jp.2.similarity_score.getD 0 * 0.8 }

/-- The merge dictionary after both phases. -/
def mergeMap (fts vec : List Post) : List Merged :=
  vec.enum.foldl (addVecPost fts.length) (addFtsPosts fts)

/-- Comparator of the final sort: combined score descending (Python
sorted with reverse=True is stable, as is mergeSort). -/
def mergedLE (a b : Merged) : Bool := decide (b.combined_score ≤ a.combined_score)

/-- The unioned result set sorted by combined score descending. -/
def mergeSorted (fts vec : List Post) : List Merged :=
  (mergeMap fts vec).mergeSort mergedLE

/-- SearchService._merge_results: the paginated slice and the total count
of the union before pagination. -/
def merge_results (fts vec : List Post) (limit offset : Nat) :
    List Merged × Nat :=
  (((mergeSorted fts vec).drop offset).take limit, (mergeSorted fts vec).length)

/-! ## Query normalizer (SearchService._prepare_fts_query) -/

/-- The FTS5-significant characters replaced by a space. -/
def specialChars : List Char :=
  ['*', '"', '(', ')', '-', '+', ':', '^', '~', '\'']

/-- Replace every special character with whitespace. -/
def stripSpecial (s : List Char) : List Char :=
  s.map fun c => if c ∈ specialChars then ' ' else c

/-- Python str.isspace characters relevant to str.split(). -/
def pyIsSpace (c : Char) : Bool :=
  c = ' ' || c = '\t' || c = '\n' || c = '\x0d' || c = '\x0b' || c = '\x0c'

/-- Python str.split() with no argument: split on whitespace runs,
discarding empty pieces. -/
def pySplit (s : List Char) : List String :=
  ((s.splitOnP pyIsSpace).filter (· ≠ [])).map fun l => ⟨l⟩

/-- ASCII-style lowercasing of a string, character by character. -/
def lowerStr (s : String) : String := ⟨s.data.map Char.toLower⟩

/-- The fixed stopword set of the normalizer. -/
def stopwords : List String :=
  ["or", "and", "not", "the", "a", "an", "is", "are", "was", "were"]

/-- Keep a token when it is nonempty, not a stopword (case-insensitively),
and longer than one character. -/
def keepToken (w : String) : Bool :=
  decide (w ≠ "") && decide (lowerStr w ∉ stopwords) && decide (w.length > 1)

/-- Deduplication preserving the first occurrence (dict.fromkeys order). -/
def dedupFirst : List String → List String
  | [] => []
  | x :: xs => x :: dedupFirst (xs.filter fun y => decide (y ≠ x))
termination_by l => l.length
decreasing_by
  simp only [List.length_cons]
  exact Nat.lt_succ_of_le (List.length_filter_le _ _)

/-- SearchService._prepare_fts_query: strip special characters, tokenize,
drop stopwords and one-character tokens, and join the first 10 distinct
survivors with OR; with no surviving token, return the match-nothing
sentinel expression. -/
def prepare_fts_query (query : String) : String :=
  let words := (pySplit (stripSpecial query.data)).filter keepToken
  if words = [] then "\"\""
  else String.intercalate " OR " ((dedupFirst words).take 10)

/-- Normalizer as the specification words it: strip, tokenize, drop short
and stopword tokens, deduplicate preserving first occurrence, cap at 10,
join with OR, and emit the sentinel when no token remains. -/
def normalizerSpec (query : String) : String :=
  let kept :=
    (dedupFirst ((pySplit (stripSpecial query.data)).filter keepToken)).take 10
  if kept = [] then "\"\"" else String.intercalate " OR " kept

/-! ## Cosine similarity (module-level cosine_similarity) -/

/-- Dot product of two vectors, as numpy.dot on equal-length inputs. -/
noncomputable def dotList (a b : List ℝ) : ℝ := (List.zipWith (· * ·) a b).sum

/-- Euclidean norm, as numpy.linalg.norm. -/
noncomputable def normList (a : List ℝ) : ℝ := Real.sqrt (dotList a a)

/-- cosine_similarity: dot product over the product of the norms. -/
noncomputable def cosine_similarity (a b : List ℝ) : ℝ :=
  dotList a b / (normList a * normList b)

/-! ## Full-text search with fallback (SearchService._fts_search and
SearchService._like_search) -/

/-- The shared SQL filters: author exact match, posted_at range (SQL NULL
comparisons are not selected), sentiment exact match. -/
def filterPred (author : Option String) (dfrom dto : Option Int)
    (sent : Option String) (p : Post) : Bool :=
  (match author with
   | none => true
   | some a => decide (p.author_username = a)) &&
  (match dfrom with
   | none => true
   | some d => match p.posted_at with
     | none => false
     | some t => decide (d ≤ t)) &&
  (match dto with
   | none => true
   | some d => match p.posted_at with
     | none => false
     | some t => decide (t ≤ d)) &&
  (match sent with
   | none => true
   | some s => decide (p.ai_sentiment = some s))

/-- SQLite LIKE with wrapping wildcards: case-insensitive substring
containment. -/
def likeContains (needle hay : String) : Bool :=
  decide ((lowerStr needle).data <:+: (lowerStr hay).data)

/-- The fallback WHERE clause: substring match against content, AI
description, or author handle. -/
def likeMatch (q : String) (p : Post) : Bool :=
  likeContains q p.content || likeContains q p.ai_description ||
    likeContains q p.author_username

/-- SQL ORDER BY on a nullable integer column: NULLs sort first
ascending. -/
def optIntLE (a b : Option Int) : Bool :=
  match a, b with
  | none, _ => true
  | some _, none => false
  | some x, some y => decide (x ≤ y)

/-- Ascending comparator for the fallback sort columns: relevance is
approximated by likes, unknown fields fall back to likes. -/
def likeKeyLE (sort_by : String) (a b : Post) : Bool :=
  if sort_by = "date" then optIntLE a.posted_at b.posted_at
  else if sort_by = "retweets" then decide (a.retweets ≤ b.retweets)
  else if sort_by = "views" then decide (a.views ≤ b.views)
  else decide (a.likes ≤ b.likes)

/-- Requested direction: descending exactly when sort_order lowercases to
"desc". -/
def isDesc (sort_order : String) : Bool := lowerStr sort_order = "desc"

/-- ORDER BY direction: DESC flips the ascending comparator. -/
def orderComp {α : Type} (le : α → α → Bool) (descOrder : Bool) :
    α → α → Bool :=
  match descOrder with
  | true => fun a b => le b a
  | false => le

/-- SearchService._like_search: filter by substring match and the shared
filters, sort by the proxy column in the requested direction, page, and
count the unpaginated hits. -/
def like_search (corpus : List Post) (query : String) (limit offset : Nat)
    (sort_by sort_order : String) (author : Option String)
    (dfrom dto : Option Int) (sent : Option String) : List Post × Nat :=
  let hits :=
    corpus.filter fun p => likeMatch query p && filterPred author dfrom dto sent p
  let sortedM := hits.mergeSort (orderComp (likeKeyLE sort_by) (isDesc sort_order))
  ((sortedM.drop offset).take limit, hits.length)

/-- The token-search engine: either a MATCH predicate (given the prepared
query expression) together with a bm25 score, or an execution error. -/
inductive FtsEngine where
  | ok (matchP : String → Post → Bool) (bm25 : Post → ℚ) : FtsEngine
  | err : FtsEngine

/-- Ascending comparator for the FTS sort columns; relevance and unknown
fields use the engine's bm25 score. -/
def ftsKeyLE (sort_by : String) (bm25 : Post → ℚ) (a b : Post) : Bool :=
  if sort_by = "date" then optIntLE a.posted_at b.posted_at
  else if sort_by = "likes" then decide (a.likes ≤ b.likes)
  else if sort_by = "retweets" then decide (a.retweets ≤ b.retweets)
  else if sort_by = "views" then decide (a.views ≤ b.views)
  else decide (bm25 a ≤ bm25 b)

/-- FTS direction: relevance is forced ascending (bm25 scores are
negative, lower is better); every other field honors the request. -/
def ftsDesc (sort_by sort_order : String) : Bool :=
  if sort_by = "relevance" then false else isDesc sort_order

/-- SearchService._fts_search: on a working engine, filter by MATCH over
the prepared query plus the shared filters, sort, page and count; on an
engine error, fall back to the substring search over the original raw
query with the same filters. -/
def fts_search (engine : FtsEngine) (corpus : List Post)
    (search_query original_query : String) (limit offset : Nat)
    (sort_by sort_order : String) (author : Option String)
    (dfrom dto : Option Int) (sent : Option String) : List Post × Nat :=
  match engine with
  | .ok matchP bm25 =>
      let fq := prepare_fts_query search_query
      let hits :=
        corpus.filter fun p => matchP fq p && filterPred author dfrom dto sent p
      let sortedM :=
        hits.mergeSort (orderComp (ftsKeyLE sort_by bm25) (ftsDesc sort_by sort_order))
      ((sortedM.drop offset).take limit, hits.length)
  | .err =>
      like_search corpus original_query limit offset sort_by sort_order
        author dfrom dto sent

/-! ## Question answering (SearchService.answer_question) -/

/-- The keyword arguments of SearchService.search with their Python
default values. -/
structure SearchArgs where
  query : String
  limit : Nat := 20
  offset : Nat := 0
  sort_by : String := "relevance"
  sort_order : String := "desc"
  author_filter : Option String := none
  date_from : Option Int := none
  date_to : Option Int := none
  sentiment_filter : Option String := none
  include_summary : Bool := true
  enhance_query : Bool := true
  search_mode : String := "hybrid"
deriving DecidableEq

/-- The response dict of SearchService.search; the analysis payload is
kept abstract. -/
structure SearchResponse (α : Type) where
  query : String
  enhanced_query : Option String
  query_analysis : Option α
  results : List Post
  total_count : Nat
  limit : Nat
  offset : Nat
  summary : Option String

/-- The response dict of SearchService.answer_question. -/
structure QuestionResponse (α : Type) where
  question : String
  answer : String
  sources : List Post
  query_analysis : Option α

/-- The canned answer used when the search finds nothing. -/
def noRelevantAnswer : String :=
  "I couldn't find any relevant posts to answer your question."

/-- SearchService.answer_question, parametric in the orchestrated search
and in the Grok answer collaborator: search with limit 15, summary off and
enhancement on; short-circuit with the canned answer on an empty result
list; otherwise answer via the collaborator, citing the top 5 results. -/
def answer_question {α : Type} (search : SearchArgs → SearchResponse α)
    (answerFn : String → List Post → String) (question : String) :
    QuestionResponse α :=
  let sr := search { query := question, limit := 15,
                     include_summary := false, enhance_query := true }
  let posts := sr.results
  if posts = [] then
    { question := question, answer := noRelevantAnswer, sources := [],
      query_analysis := sr.query_analysis }
  else
    { question := question, answer := answerFn question posts,
      sources := posts.take 5, query_analysis := sr.query_analysis }

/-! ## Suggestions (SearchService.get_suggestions) -/

/-- A row of the search_queries log table. -/
structure LogEntry where
  original_query : String
  result_count : Int
  created_at : Int
deriving DecidableEq

/-- SearchService.get_suggestions, parametric in the enumeration order the
Python builtin set produces (any ordering of the distinct elements):
select matching successful queries newest first, stop at limit, then
deduplicate through a set and re-list. -/
def get_suggestions (setEnum : List String → List String)
    (log : List LogEntry) (frag : String) (limit : Nat) : List String :=
  let rows :=
    (((log.filter fun e =>
          likeContains frag e.original_query && decide (e.result_count > 0)).mergeSort
        (fun a b => decide (b.created_at ≤ a.created_at))).take limit).map
      (·.original_query)
  (setEnum rows).take limit

/-! ## Concrete inputs used by the witnesses -/

/-- The argument record answer_question passes to search: internal limit
15, no summary, enhancement requested, and the remaining keyword defaults
(hybrid mode, offset 0, relevance sort descending, no filters). -/
def qaArgs (q : String) : SearchArgs :=
  { query := q, limit := 15, offset := 0, sort_by := "relevance",
    sort_order := "desc", author_filter := none, date_from := none,
    date_to := none, sentiment_filter := none, include_summary := false,
    enhance_query := true, search_mode := "hybrid" }

/-- A concrete post used for witnesses. -/
def mkPost (pid : String) (lk : Int) (sim : Option ℚ) : Post :=
  { id := 0, post_id := pid, author_username := "u",
    author_display_name := "u", content := "rust is fast", likes := lk,
    retweets := 0, replies := 0, views := 0, posted_at := none,
    scraped_at := none, ai_description := "d", ai_topics := [],
    ai_sentiment := none, ai_entities := [], has_media := false,
    media_urls := [], similarity_score := sim }

/-- A tiny concrete corpus for the search witnesses. -/
def demoCorpus : List Post := [mkPost "x" 3 none, mkPost "y" 5 none]

/-- An engine MATCH predicate that accepts every post. -/
def matchAll : String → Post → Bool := fun _ _ => true

/-- A constant bm25 score. -/
def bmZero : Post → ℚ := fun _ => 0

/-- A search stub returning no results, for the question-answering
witness. -/
def emptySearch : SearchArgs → SearchResponse Nat := fun a =>
  { query := a.query, enhanced_query := none, query_analysis := none,
    results := [], total_count := 0, limit := a.limit, offset := a.offset,
    summary := none }

/-- Two distinguishable answer collaborators. -/
def ansA : String → List Post → String := fun _ _ => "a"

/-- Two distinguishable answer collaborators. -/
def ansB : String → List Post → String := fun _ _ => "b"

/-- One admissible enumeration order of a Python set: the distinct
elements, reversed. -/
def revEnum (l : List String) : List String := l.dedup.reverse

/-- A concrete search log: two successful queries, "apple" newer than
"apricot". -/
def demoLog : List LogEntry := [⟨"apple", 1, 2⟩, ⟨"apricot", 1, 1⟩]

/-! ## Dictionary lemmas -/

theorem keyIs_eq_true {k : String} {e : Merged} :
    keyIs k e = true ↔ e.post.post_id = k := by
  simp [keyIs]

theorem updEntry_find?_self (k : String) (v : Merged) (m : List Merged)
    (hv : v.post.post_id = k) :
    (updEntry k v m).find? (keyIs k) = some v := by
  induction m with
  | nil => simp [updEntry, List.find?_cons, keyIs, hv]
  | cons e es ih =>
    by_cases h : e.post.post_id = k
    · simp [updEntry, h, List.find?_cons, keyIs, hv]
    · simp [updEntry, h, List.find?_cons, keyIs, ih]

theorem updEntry_find?_ne (k k' : String) (v : Merged) (m : List Merged)
    (hv : v.post.post_id = k) (hne : k' ≠ k) :
    (updEntry k v m).find? (keyIs k') = m.find? (keyIs k') := by
  induction m with
  | nil =>
    have : ¬ v.post.post_id = k' := by rw [hv]; exact fun h => hne h.symm
    simp [updEntry, List.find?_cons, keyIs, this]
  | cons e es ih =>
    have hkk : ¬ k = k' := fun h => hne h.symm
    by_cases h : e.post.post_id = k
    · have hv' : ¬ v.post.post_id = k' := by rw [hv]; exact hkk
      have he' : ¬ e.post.post_id = k' := by rw [h]; exact hkk
      simp [updEntry, h, List.find?_cons, keyIs, hv', he', hkk]
    · by_cases h2 : e.post.post_id = k'
      · simp [updEntry, h, List.find?_cons, keyIs, h2, hkk, hne]
      · simp [updEntry, h, List.find?_cons, keyIs, h2, hkk, hne, ih]

theorem updEntry_append (k : String) (v : Merged) (m : List Merged)
    (h : ∀ e ∈ m, e.post.post_id ≠ k) :
    updEntry k v m = m ++ [v] := by
  induction m with
  | nil => rfl
  | cons e es ih =>
    have he : e.post.post_id ≠ k := h e (List.mem_cons_self e es)
    simp only [updEntry, if_neg he, List.cons_append]
    rw [ih fun e' he' => h e' (List.mem_cons_of_mem e he')]

theorem mem_updEntry {k : String} {v : Merged} {m : List Merged} :
    ∀ e' ∈ updEntry k v m, e' = v ∨ e' ∈ m := by
  induction m with
  | nil => intro e' he'; simp [updEntry] at he'; exact Or.inl he'
  | cons e es ih =>
    intro e' he'
    by_cases h : e.post.post_id = k
    · simp only [updEntry, if_pos h] at he'
      rcases List.mem_cons.1 he' with rfl | h2
      · exact Or.inl rfl
      · exact Or.inr (List.mem_cons_of_mem e h2)
    · simp only [updEntry, if_neg h] at he'
      rcases List.mem_cons.1 he' with rfl | h2
      · exact Or.inr (List.mem_cons_self _ _)
      · rcases ih e' h2 with h3 | h3
        · exact Or.inl h3
        · exact Or.inr (List.mem_cons_of_mem e h3)

theorem updEntry_keys_nodup {k : String} {v : Merged} {m : List Merged}
    (hv : v.post.post_id = k)
    (h : (m.map fun e => e.post.post_id).Nodup) :
    ((updEntry k v m).map fun e => e.post.post_id).Nodup := by
  induction m with
  | nil => simp [updEntry]
  | cons e es ih =>
    rw [List.map_cons, List.nodup_cons] at h
    by_cases hk : e.post.post_id = k
    · simp only [updEntry, if_pos hk, List.map_cons, List.nodup_cons]
      rw [hv, ← hk]
      exact h
    · simp only [updEntry, if_neg hk, List.map_cons, List.nodup_cons]
      refine ⟨?_, ih h.2⟩
      intro hmem
      rcases List.mem_map.1 hmem with ⟨e', he', hkey⟩
      rcases mem_updEntry e' he' with rfl | h2
      · exact hk (hkey ▸ hv ▸ rfl)
      · exact h.1 (List.mem_map.2 ⟨e', h2, hkey⟩)

/-! ## Characterizing the two merge phases -/

theorem foldl_fts_append (l : List (Nat × Post)) (acc : List Merged)
    (hnd : (l.map fun ip => ip.2.post_id).Nodup)
    (hdisj : ∀ ip ∈ l, ∀ e ∈ acc, e.post.post_id ≠ ip.2.post_id) :
    l.foldl (fun m ip => updEntry ip.2.post_id (fEnt ip) m) acc =
      acc ++ l.map fEnt := by
  induction l generalizing acc with
  | nil => simp
  | cons ip l ih =>
    rw [List.map_cons, List.nodup_cons] at hnd
    rw [List.foldl_cons,
      updEntry_append _ _ _ (fun e he => hdisj ip (List.mem_cons_self _ _) e he),
      ih (acc ++ [fEnt ip]) hnd.2]
    · simp
    · intro jp hjp e he
      rcases List.mem_append.1 he with h | h
      · exact hdisj jp (List.mem_cons_of_mem ip hjp) e h
      · rcases List.mem_singleton.1 h with rfl
        show ip.2.post_id ≠ jp.2.post_id
        intro hEq
        exact hnd.1 (List.mem_map.2 ⟨jp, hjp, hEq.symm⟩)

theorem vecUpd_post_id (L : Nat) (m : List Merged) (jp : Nat × Post) :
    (vecUpd L (m.find? (keyIs jp.2.post_id)) jp).post.post_id =
      jp.2.post_id := by
  cases h : m.find? (keyIs jp.2.post_id) with
  | none => rfl
  | some e =>
    have he := keyIs_eq_true.1 (List.find?_some h)
    simp [vecUpd, he]

theorem foldl_vec_find? (L : Nat) (l : List (Nat × Post))
    (hnd : (l.map fun jp => jp.2.post_id).Nodup) (m : List Merged)
    (s : String) :
    (l.foldl (addVecPost L) m).find? (keyIs s) =
      match l.find? (fun jp => decide (jp.2.post_id = s)) with
      | some jp => some (vecUpd L (m.find? (keyIs s)) jp)
      | none => m.find? (keyIs s) := by
  induction l generalizing m with
  | nil => simp
  | cons jp l ih =>
    rw [List.map_cons, List.nodup_cons] at hnd
    rw [List.foldl_cons, ih hnd.2]
    by_cases hs : jp.2.post_id = s
    · have hl : l.find? (fun jp => decide (jp.2.post_id = s)) = none := by
        rw [List.find?_eq_none]
        intro jp' hjp'
        simp only [decide_eq_true_eq]
        intro hEq
        exact hnd.1 (List.mem_map.2 ⟨jp', hjp', hEq.trans hs.symm⟩)
      have hhead : (jp :: l).find? (fun jp => decide (jp.2.post_id = s)) =
          some jp := by
        simp [List.find?_cons, hs]
      rw [hl, hhead, ← hs]
      unfold addVecPost
      rw [updEntry_find?_self _ _ _ (vecUpd_post_id L m jp)]
    · have hstep : (addVecPost L m jp).find? (keyIs s) = m.find? (keyIs s) := by
        unfold addVecPost
        exact updEntry_find?_ne _ _ _ _ (vecUpd_post_id L m jp)
          fun h => hs h.symm
      have hhead : (jp :: l).find? (fun jp => decide (jp.2.post_id = s)) =
          l.find? (fun jp => decide (jp.2.post_id = s)) := by
        simp [List.find?_cons, hs]
      rw [hstep, hhead]

theorem foldl_vec_keys_nodup (L : Nat) (l : List (Nat × Post))
    (m : List Merged) (h : (m.map fun e => e.post.post_id).Nodup) :
    (((l.foldl (addVecPost L) m)).map fun e => e.post.post_id).Nodup := by
  induction l generalizing m with
  | nil => exact h
  | cons jp l ih =>
    rw [List.foldl_cons]
    exact ih _ (updEntry_keys_nodup (vecUpd_post_id L m jp) h)

theorem foldl_vec_append (L : Nat) (l : List (Nat × Post)) (m : List Merged)
    (hnd : (l.map fun jp => jp.2.post_id).Nodup)
    (hdisj : ∀ jp ∈ l, ∀ e ∈ m, e.post.post_id ≠ jp.2.post_id) :
    l.foldl (addVecPost L) m = m ++ l.map vEnt := by
  induction l generalizing m with
  | nil => simp
  | cons jp l ih =>
    rw [List.map_cons, List.nodup_cons] at hnd
    have hfind : m.find? (keyIs jp.2.post_id) = none := by
      rw [List.find?_eq_none]
      intro e he
      simp only [keyIs, decide_eq_true_eq]
      exact hdisj jp (List.mem_cons_self _ _) e he
    have hstep : addVecPost L m jp = m ++ [vEnt jp] := by
      unfold addVecPost
      rw [hfind]
      exact updEntry_append _ _ _
        fun e he => hdisj jp (List.mem_cons_self _ _) e he
    rw [List.foldl_cons, hstep, ih (m ++ [vEnt jp]) hnd.2]
    · simp
    · intro jp' hjp' e he
      rcases List.mem_append.1 he with h | h
      · exact hdisj jp' (List.mem_cons_of_mem jp hjp') e h
      · rcases List.mem_singleton.1 h with rfl
        show jp.2.post_id ≠ jp'.2.post_id
        intro hEq
        exact hnd.1 (List.mem_map.2 ⟨jp', hjp', hEq.symm⟩)

/-! ## Lookup in the enumerated input lists -/

theorem map_fEnt_find? (l : List (Nat × Post)) (s : String) :
    (l.map fEnt).find? (keyIs s) =
      (l.find? fun jp => decide (jp.2.post_id = s)).map fEnt := by
  rw [List.find?_map]
  rfl

theorem enumFrom_find?_get (l : List Post) (hnd : (l.map Post.post_id).Nodup)
    (n i : Nat) (hi : i < l.length) :
    (l.enumFrom n).find?
        (fun jp => decide (jp.2.post_id = (l.get ⟨i, hi⟩).post_id)) =
      some (n + i, l.get ⟨i, hi⟩) := by
  induction l generalizing n i with
  | nil => cases hi
  | cons p t ih =>
    rw [List.map_cons, List.nodup_cons] at hnd
    cases i with
    | zero =>
      simp [List.enumFrom_cons, List.find?_cons]
    | succ i =>
      have hi' : i < t.length := Nat.lt_of_succ_lt_succ hi
      have hget : (p :: t).get ⟨i + 1, hi⟩ = t.get ⟨i, hi'⟩ := rfl
      have hne : ¬ p.post_id = ((p :: t).get ⟨i + 1, hi⟩).post_id := by
        rw [hget]
        intro hEq
        exact hnd.1 (List.mem_map.2 ⟨t.get ⟨i, hi'⟩, List.get_mem t i hi', hEq.symm⟩)
      rw [List.enumFrom_cons, List.find?_cons]
      simp only [hne, decide_eq_true_eq, if_neg]
      rw [hget, ih hnd.2 (n + 1) i hi']
      simp
      omega

theorem enumFrom_find?_none (l : List Post) (n : Nat) (s : String)
    (h : s ∉ l.map Post.post_id) :
    (l.enumFrom n).find? (fun jp => decide (jp.2.post_id = s)) = none := by
  rw [List.find?_eq_none]
  intro jp hjp
  simp only [decide_eq_true_eq]
  intro hEq
  have : jp.2 ∈ l := by
    have := List.mem_map_of_mem Prod.snd hjp
    rwa [List.enumFrom_map_snd] at this
  exact h (List.mem_map.2 ⟨jp.2, this, hEq⟩)

theorem mem_keys_iff_enumFrom (l : List Post) (n : Nat) (s : String) :
    (∃ jp ∈ l.enumFrom n, jp.2.post_id = s) ↔ s ∈ l.map Post.post_id := by
  induction l generalizing n with
  | nil => simp
  | cons p t ih =>
    rw [List.enumFrom_cons, List.map_cons]
    constructor
    · rintro ⟨jp, hjp, hEq⟩
      rcases List.mem_cons.1 hjp with rfl | h2
      · exact List.mem_cons.2 (Or.inl hEq.symm)
      · exact List.mem_cons.2 (Or.inr ((ih (n + 1)).1 ⟨jp, h2, hEq⟩))
    · intro h
      rcases List.mem_cons.1 h with h1 | h2
      · exact ⟨(n, p), List.mem_cons_self _ _, h1.symm⟩
      · rcases (ih (n + 1)).2 h2 with ⟨jp, hjp, hEq⟩
        exact ⟨jp, List.mem_cons_of_mem _ hjp, hEq⟩

/-! ## The merge map, characterized -/

theorem keys_enum_map (l : List Post) :
    (l.enum.map fun ip => ip.2.post_id) = l.map Post.post_id := by
  rw [show (fun ip : Nat × Post => ip.2.post_id) = Post.post_id ∘ Prod.snd
      from rfl]
  rw [← List.map_map, List.enum_map_snd]

theorem addFtsPosts_eq (fts : List Post)
    (hf : (fts.map Post.post_id).Nodup) :
    addFtsPosts fts = fts.enum.map fEnt := by
  unfold addFtsPosts
  rw [foldl_fts_append fts.enum [] (by rw [keys_enum_map]; exact hf)
    (by simp)]
  simp

theorem mergeMap_find? (fts vec : List Post)
    (hf : (fts.map Post.post_id).Nodup) (hv : (vec.map Post.post_id).Nodup)
    (s : String) :
    (mergeMap fts vec).find? (keyIs s) =
      match vec.enum.find? (fun jp => decide (jp.2.post_id = s)) with
      | some jp =>
          some (vecUpd fts.length ((fts.enum.map fEnt).find? (keyIs s)) jp)
      | none => (fts.enum.map fEnt).find? (keyIs s) := by
  unfold mergeMap
  rw [addFtsPosts_eq fts hf,
    foldl_vec_find? fts.length vec.enum (by rw [keys_enum_map]; exact hv)]

theorem mergeMap_keys_nodup (fts vec : List Post)
    (hf : (fts.map Post.post_id).Nodup) :
    ((mergeMap fts vec).map fun e => e.post.post_id).Nodup := by
  unfold mergeMap
  apply foldl_vec_keys_nodup
  rw [addFtsPosts_eq fts hf, List.map_map]
  rw [show ((fun e : Merged => e.post.post_id) ∘ fEnt) =
      fun ip : Nat × Post => ip.2.post_id from rfl]
  rw [keys_enum_map]
  exact hf

theorem mergeMap_find?_ftsOnly (fts vec : List Post)
    (hf : (fts.map Post.post_id).Nodup) (hv : (vec.map Post.post_id).Nodup)
    (i : Nat) (hi : i < fts.length)
    (hno : (fts.get ⟨i, hi⟩).post_id ∉ vec.map Post.post_id) :
    (mergeMap fts vec).find? (keyIs (fts.get ⟨i, hi⟩).post_id) =
      some ⟨fts.get ⟨i, hi⟩, some i, none, 1 / ((i : ℚ) + 1)⟩ := by
  rw [mergeMap_find? fts vec hf hv, List.enum_eq_enumFrom,
    enumFrom_find?_none vec 0 _ hno, map_fEnt_find?, List.enum_eq_enumFrom,
    enumFrom_find?_get fts hf 0 i hi]
  simp [fEnt]

theorem mergeMap_find?_shared (fts vec : List Post)
    (hf : (fts.map Post.post_id).Nodup) (hv : (vec.map Post.post_id).Nodup)
    (i j : Nat) (hi : i < fts.length) (hj : j < vec.length)
    (hid : (fts.get ⟨i, hi⟩).post_id = (vec.get ⟨j, hj⟩).post_id) :
    (mergeMap fts vec).find? (keyIs (fts.get ⟨i, hi⟩).post_id) =
      some ⟨{ fts.get ⟨i, hi⟩ with
          similarity_score :=
            some ((vec.get ⟨j, hj⟩).similarity_score.getD 0) },
        some i, none,
        (1 / ((i : ℚ) + 1) + (vec.get ⟨j, hj⟩).similarity_score.getD 0) / 2⟩ := by
  rw [mergeMap_find? fts vec hf hv, List.enum_eq_enumFrom, hid,
    enumFrom_find?_get vec hv 0 j hj, map_fEnt_find?, List.enum_eq_enumFrom,
    ← hid, enumFrom_find?_get fts hf 0 i hi]
  simp [vecUpd, fEnt]

theorem mergeMap_find?_vecOnly (fts vec : List Post)
    (hf : (fts.map Post.post_id).Nodup) (hv : (vec.map Post.post_id).Nodup)
    (j : Nat) (hj : j < vec.length)
    (hno : (vec.get ⟨j, hj⟩).post_id ∉ fts.map Post.post_id) :
    (mergeMap fts vec).find? (keyIs (vec.get ⟨j, hj⟩).post_id) =
      some ⟨vec.get ⟨j, hj⟩, none, some j,
        (vec.get ⟨j, hj⟩).similarity_score.getD 0 * 0.8⟩ := by
  rw [mergeMap_find? fts vec hf hv, List.enum_eq_enumFrom,
    enumFrom_find?_get vec hv 0 j hj, map_fEnt_find?, List.enum_eq_enumFrom,
    enumFrom_find?_none fts 0 _ hno]
  simp [vecUpd]

/-! ## The sorted union -/

theorem mem_mergeSorted_of_find? {fts vec : List Post} {s : String}
    {v : Merged} (h : (mergeMap fts vec).find? (keyIs s) = some v) :
    v ∈ mergeSorted fts vec :=
  (List.mergeSort_perm (mergeMap fts vec) mergedLE).mem_iff.2
    (List.mem_of_find?_eq_some h)

theorem mergedLE_trans : ∀ a b c : Merged, mergedLE a b = true →
    mergedLE b c = true → mergedLE a c = true := by
  intro a b c h1 h2
  simp only [mergedLE, decide_eq_true_eq] at *
  exact le_trans h2 h1

theorem mergedLE_total : ∀ a b : Merged,
    (mergedLE a b || mergedLE b a) = true := by
  intro a b
  simp only [mergedLE, Bool.or_eq_true, decide_eq_true_eq]
  exact le_total _ _

theorem mergeSorted_pairwise (fts vec : List Post) :
    (mergeSorted fts vec).Pairwise
      fun a b => b.combined_score ≤ a.combined_score := by
  have h := List.sorted_mergeSort mergedLE_trans mergedLE_total
    (mergeMap fts vec)
  exact h.imp fun hab => by simpa [mergedLE] using hab

theorem find?_isSome_key (l : List Post) (n : Nat) (s : String) :
    ((l.enumFrom n).find? fun jp => decide (jp.2.post_id = s)).isSome ↔
      s ∈ l.map Post.post_id := by
  rw [List.find?_isSome]
  constructor
  · rintro ⟨jp, hjp, hp⟩
    simp only [decide_eq_true_eq] at hp
    exact (mem_keys_iff_enumFrom l n s).1 ⟨jp, hjp, hp⟩
  · intro h
    rcases (mem_keys_iff_enumFrom l n s).2 h with ⟨jp, hjp, hEq⟩
    exact ⟨jp, hjp, by simpa using hEq⟩

theorem mergeMap_find?_isSome (fts vec : List Post)
    (hf : (fts.map Post.post_id).Nodup) (hv : (vec.map Post.post_id).Nodup)
    (s : String) :
    ((mergeMap fts vec).find? (keyIs s)).isSome = true ↔
      s ∈ fts.map Post.post_id ∨ s ∈ vec.map Post.post_id := by
  rw [mergeMap_find? fts vec hf hv s]
  cases hveq : vec.enum.find? (fun jp => decide (jp.2.post_id = s)) with
  | some jp =>
    simp only [Option.isSome_some, true_iff]
    right
    have h1 := List.find?_some hveq
    simp only [decide_eq_true_eq] at h1
    have h2 := List.mem_of_find?_eq_some hveq
    rw [List.enum_eq_enumFrom] at h2
    exact (mem_keys_iff_enumFrom vec 0 s).1 ⟨jp, h2, h1⟩
  | none =>
    have hvno : s ∉ vec.map Post.post_id := by
      rw [← find?_isSome_key vec 0 s, ← List.enum_eq_enumFrom, hveq]
      simp
    rw [map_fEnt_find?, Option.isSome_map', List.enum_eq_enumFrom,
      find?_isSome_key fts 0 s]
    simp [hvno]

theorem mergeSorted_keys_iff (fts vec : List Post)
    (hf : (fts.map Post.post_id).Nodup) (hv : (vec.map Post.post_id).Nodup)
    (s : String) :
    (∃ e ∈ mergeSorted fts vec, e.post.post_id = s) ↔
      s ∈ fts.map Post.post_id ∨ s ∈ vec.map Post.post_id := by
  rw [← mergeMap_find?_isSome fts vec hf hv s]
  constructor
  · rintro ⟨e, he, hEq⟩
    exact List.find?_isSome.2
      ⟨e, (List.mergeSort_perm _ _).mem_iff.1 he, keyIs_eq_true.2 hEq⟩
  · intro h
    rcases Option.isSome_iff_exists.1 h with ⟨e, he⟩
    exact ⟨e, mem_mergeSorted_of_find? he, keyIs_eq_true.1 (List.find?_some he)⟩

theorem mergeSorted_keys_nodup (fts vec : List Post)
    (hf : (fts.map Post.post_id).Nodup) :
    ((mergeSorted fts vec).map fun e => e.post.post_id).Nodup :=
  (((List.mergeSort_perm (mergeMap fts vec) mergedLE).map
      fun e => e.post.post_id).nodup_iff).2 (mergeMap_keys_nodup fts vec hf)

theorem mergeSorted_key_unique (fts vec : List Post)
    (hf : (fts.map Post.post_id).Nodup) {a b : Merged}
    (ha : a ∈ mergeSorted fts vec) (hb : b ∈ mergeSorted fts vec)
    (hEq : a.post.post_id = b.post.post_id) : a = b :=
  List.inj_on_of_nodup_map (mergeSorted_keys_nodup fts vec hf) ha hb hEq

/-! ## Pagination arithmetic -/

theorem flatten_take_pages {α : Type} (l : List α) (L : Nat) (n : Nat) :
    ((List.range n).map fun k => (l.drop (k * L)).take L).flatten =
      l.take (n * L) := by
  induction n with
  | zero => simp
  | succ n ih =>
    rw [List.range_succ, List.map_append, List.flatten_append, ih]
    simp only [List.map_cons, List.map_nil, List.flatten_cons,
      List.flatten_nil, List.append_nil]
    rw [Nat.succ_mul, List.take_add]

theorem le_ceilDiv_mul (N L : Nat) (hL : 0 < L) :
    N ≤ (N + L - 1) / L * L := by
  have key : ∀ M r : Nat, M + r = N + L - 1 → r < L → N ≤ M := by
    intro M r h1 h2
    omega
  exact key _ _ (by rw [Nat.mul_comm]; exact Nat.div_add_mod _ _)
    (Nat.mod_lt _ hL)

/-! ## Disjoint inputs -/

theorem mergeMap_disjoint (fts vec : List Post)
    (hf : (fts.map Post.post_id).Nodup) (hv : (vec.map Post.post_id).Nodup)
    (hdisj : ∀ s ∈ fts.map Post.post_id, s ∉ vec.map Post.post_id) :
    mergeMap fts vec = fts.enum.map fEnt ++ vec.enum.map vEnt := by
  unfold mergeMap
  rw [addFtsPosts_eq fts hf]
  apply foldl_vec_append
  · rw [keys_enum_map]; exact hv
  · intro jp hjp e he
    rcases List.mem_map.1 he with ⟨ip, hip, rfl⟩
    show ip.2.post_id ≠ jp.2.post_id
    intro hEq
    have h1 : ip.2.post_id ∈ fts.map Post.post_id := by
      have hm : ip.2 ∈ fts := by
        have := List.mem_map_of_mem Prod.snd hip
        rwa [List.enum_map_snd] at this
      exact List.mem_map_of_mem Post.post_id hm
    have h2 : jp.2.post_id ∈ vec.map Post.post_id := by
      have hm : jp.2 ∈ vec := by
        have := List.mem_map_of_mem Prod.snd hjp
        rwa [List.enum_map_snd] at this
      exact List.mem_map_of_mem Post.post_id hm
    exact hdisj _ h1 (hEq ▸ h2)

theorem mergeSorted_length_disjoint (fts vec : List Post)
    (hf : (fts.map Post.post_id).Nodup) (hv : (vec.map Post.post_id).Nodup)
    (hdisj : ∀ s ∈ fts.map Post.post_id, s ∉ vec.map Post.post_id) :
    (mergeSorted fts vec).length = fts.length + vec.length := by
  rw [mergeSorted,
    (List.mergeSort_perm (mergeMap fts vec) mergedLE).length_eq,
    mergeMap_disjoint fts vec hf hv hdisj]
  simp [List.enum_length]

/-! ## Comparator facts for the SQL sorts -/

theorem optIntLE_trans : ∀ a b c : Option Int, optIntLE a b = true →
    optIntLE b c = true → optIntLE a c = true := by
  intro a b c h1 h2
  cases a <;> cases b <;> cases c <;> simp [optIntLE] at * <;> omega

theorem optIntLE_total : ∀ a b : Option Int,
    (optIntLE a b || optIntLE b a) = true := by
  intro a b
  cases a <;> cases b <;> simp [optIntLE] <;> omega

theorem likeKeyLE_trans (sb : String) : ∀ a b c : Post,
    likeKeyLE sb a b = true → likeKeyLE sb b c = true →
    likeKeyLE sb a c = true := by
  intro a b c
  unfold likeKeyLE
  split_ifs <;> intro h1 h2
  · exact optIntLE_trans _ _ _ h1 h2
  all_goals simp only [decide_eq_true_eq] at * <;> omega

theorem likeKeyLE_total (sb : String) : ∀ a b : Post,
    (likeKeyLE sb a b || likeKeyLE sb b a) = true := by
  intro a b
  unfold likeKeyLE
  split_ifs
  · exact optIntLE_total _ _
  all_goals simp only [Bool.or_eq_true, decide_eq_true_eq] <;> omega

theorem ftsKeyLE_trans (sb : String) (bm : Post → ℚ) : ∀ a b c : Post,
    ftsKeyLE sb bm a b = true → ftsKeyLE sb bm b c = true →
    ftsKeyLE sb bm a c = true := by
  intro a b c
  unfold ftsKeyLE
  split_ifs <;> intro h1 h2
  · exact optIntLE_trans _ _ _ h1 h2
  · simp only [decide_eq_true_eq] at *; omega
  · simp only [decide_eq_true_eq] at *; omega
  · simp only [decide_eq_true_eq] at *; omega
  · simp only [decide_eq_true_eq] at *; exact le_trans h1 h2

theorem ftsKeyLE_total (sb : String) (bm : Post → ℚ) : ∀ a b : Post,
    (ftsKeyLE sb bm a b || ftsKeyLE sb bm b a) = true := by
  intro a b
  unfold ftsKeyLE
  split_ifs
  · exact optIntLE_total _ _
  · simp only [Bool.or_eq_true, decide_eq_true_eq]; omega
  · simp only [Bool.or_eq_true, decide_eq_true_eq]; omega
  · simp only [Bool.or_eq_true, decide_eq_true_eq]; omega
  · simp only [Bool.or_eq_true, decide_eq_true_eq]; exact le_total _ _

theorem orderComp_trans {α : Type} (le : α → α → Bool) (d : Bool)
    (h : ∀ a b c, le a b = true → le b c = true → le a c = true) :
    ∀ a b c, orderComp le d a b = true → orderComp le d b c = true →
      orderComp le d a c = true := by
  cases d
  · exact h
  · intro a b c h1 h2
    exact h c b a h2 h1

theorem orderComp_total {α : Type} (le : α → α → Bool) (d : Bool)
    (h : ∀ a b, (le a b || le b a) = true) :
    ∀ a b, (orderComp le d a b || orderComp le d b a) = true := by
  cases d
  · exact h
  · intro a b
    exact h b a

theorem like_search_pairwise (corpus : List Post) (q : String) (L O : Nat)
    (sb so : String) (a : Option String) (df dt : Option Int)
    (st : Option String) :
    (like_search corpus q L O sb so a df dt st).1.Pairwise
      fun p r => orderComp (likeKeyLE sb) (isDesc so) p r = true := by
  simp only [like_search]
  exact List.Pairwise.sublist
    ((List.take_sublist _ _).trans (List.drop_sublist _ _))
    (List.sorted_mergeSort (orderComp_trans _ _ (likeKeyLE_trans sb))
      (orderComp_total _ _ (likeKeyLE_total sb)) _)

theorem fts_success_pairwise (mP : String → Post → Bool) (bm : Post → ℚ)
    (corpus : List Post) (sq oq : String) (L O : Nat) (sb so : String)
    (a : Option String) (df dt : Option Int) (st : Option String) :
    (fts_search (.ok mP bm) corpus sq oq L O sb so a df dt st).1.Pairwise
      fun p r => orderComp (ftsKeyLE sb bm) (ftsDesc sb so) p r = true := by
  simp only [fts_search]
  exact List.Pairwise.sublist
    ((List.take_sublist _ _).trans (List.drop_sublist _ _))
    (List.sorted_mergeSort (orderComp_trans _ _ (ftsKeyLE_trans sb bm))
      (orderComp_total _ _ (ftsKeyLE_total sb bm)) _)

/-! ## Dot product facts -/

theorem dotList_self_nonneg (v : List ℝ) : 0 ≤ dotList v v := by
  induction v with
  | nil => simp [dotList]
  | cons x t ih =>
    simp only [dotList, List.zipWith_cons_cons, List.sum_cons] at *
    exact add_nonneg (mul_self_nonneg x) ih

theorem dotList_self_pos (v : List ℝ) (h : ∃ x ∈ v, x ≠ 0) :
    0 < dotList v v := by
  induction v with
  | nil =>
    rcases h with ⟨x, hx, _⟩
    cases hx
  | cons a t ih =>
    rcases h with ⟨x, hx, hx0⟩
    rcases List.mem_cons.1 hx with rfl | hxt
    · have h1 : 0 < x * x := mul_self_pos.2 hx0
      have h2 : 0 ≤ dotList t t := dotList_self_nonneg t
      simp only [dotList, List.zipWith_cons_cons, List.sum_cons] at *
      linarith
    · have h1 := ih ⟨x, hxt, hx0⟩
      have h2 : 0 ≤ a * a := mul_self_nonneg a
      simp only [dotList, List.zipWith_cons_cons, List.sum_cons] at *
      linarith

theorem dotList_comm (a b : List ℝ) : dotList a b = dotList b a := by
  unfold dotList
  rw [List.zipWith_comm_of_comm _ mul_comm]

/-! ## The claims -/

/-- Claim C1: the rank-fusion merger gives each full-text result at
0-based position i the reciprocal-rank score 1/(i+1) (which stays its
combined score when its id has no vector hit), scores an id present in
both lists with the arithmetic mean of 1/(fts_rank+1) and the similarity
s, scores a vector-only id s * 0.8, and the sorted union holds exactly
the ids of both inputs ordered by combined score descending. -/
theorem C1_rank_fusion_merger (fts vec : List Post)
    (hf : (fts.map Post.post_id).Nodup)
    (hv : (vec.map Post.post_id).Nodup) :
    (∀ i (hi : i < fts.length),
        (fts.get ⟨i, hi⟩).post_id ∉ vec.map Post.post_id →
        (⟨fts.get ⟨i, hi⟩, some i, none, 1 / ((i : ℚ) + 1)⟩ : Merged) ∈
          mergeSorted fts vec)
    ∧ (∀ i j (hi : i < fts.length) (hj : j < vec.length),
        (fts.get ⟨i, hi⟩).post_id = (vec.get ⟨j, hj⟩).post_id →
        (⟨{ fts.get ⟨i, hi⟩ with
              similarity_score := some ((vec.get ⟨j, hj⟩).similarity_score.getD 0) },
          some i, none,
          (1 / ((i : ℚ) + 1) +
            (vec.get ⟨j, hj⟩).similarity_score.getD 0) / 2⟩ : Merged) ∈
          mergeSorted fts vec)
    ∧ (∀ j (hj : j < vec.length),
        (vec.get ⟨j, hj⟩).post_id ∉ fts.map Post.post_id →
        (⟨vec.get ⟨j, hj⟩, none, some j,
          (vec.get ⟨j, hj⟩).similarity_score.getD 0 * 0.8⟩ : Merged) ∈
          mergeSorted fts vec)
    ∧ (mergeSorted fts vec).Pairwise
        (fun a b => b.combined_score ≤ a.combined_score)
    ∧ (∀ s, (∃ e ∈ mergeSorted fts vec, e.post.post_id = s) ↔
        s ∈ fts.map Post.post_id ∨ s ∈ vec.map Post.post_id) := by
  refine ⟨?_, ?_, ?_, mergeSorted_pairwise fts vec,
    mergeSorted_keys_iff fts vec hf hv⟩
  · intro i hi hno
    exact mem_mergeSorted_of_find?
      (mergeMap_find?_ftsOnly fts vec hf hv i hi hno)
  · intro i j hi hj hid
    exact mem_mergeSorted_of_find?
      (mergeMap_find?_shared fts vec hf hv i j hi hj hid)
  · intro j hj hno
    exact mem_mergeSorted_of_find?
      (mergeMap_find?_vecOnly fts vec hf hv j hj hno)

/-- Witness for C1: one full-text hit at rank 0 whose record also occurs
as a vector hit with similarity 0.6 fuses to (1/(0+1) + 0.6)/2, which is
0.8. -/
theorem C1_rank_fusion_merger_witness :
    (⟨{ mkPost "p1" 0 none with similarity_score := some 0.6 },
        some 0, none, (1 / ((0 : ℚ) + 1) + 0.6) / 2⟩ : Merged) ∈
      mergeSorted [mkPost "p1" 0 none] [mkPost "p1" 0 (some 0.6)]
    ∧ (1 / ((0 : ℚ) + 1) + 0.6) / 2 = 4 / 5 :=
  ⟨(C1_rank_fusion_merger [mkPost "p1" 0 none] [mkPost "p1" 0 (some 0.6)]
      (by decide) (by decide)).2.1 0 0 (by decide) (by decide) (by decide),
    by norm_num⟩

/-- Claim C2: when the full-text and vector inputs share no record ids,
the merger's reported total is the sum of the input lengths and every
vector-only record's combined score is its similarity times 0.8. -/
theorem C2_disjoint_merge (fts vec : List Post)
    (hf : (fts.map Post.post_id).Nodup)
    (hv : (vec.map Post.post_id).Nodup)
    (hdisj : ∀ s ∈ fts.map Post.post_id, s ∉ vec.map Post.post_id)
    (L O : Nat) :
    (merge_results fts vec L O).2 = fts.length + vec.length
    ∧ ∀ j (hj : j < vec.length),
        (⟨vec.get ⟨j, hj⟩, none, some j,
          (vec.get ⟨j, hj⟩).similarity_score.getD 0 * 0.8⟩ : Merged) ∈
          mergeSorted fts vec := by
  constructor
  · show (mergeSorted fts vec).length = _
    exact mergeSorted_length_disjoint fts vec hf hv hdisj
  · intro j hj
    apply mem_mergeSorted_of_find?
    apply mergeMap_find?_vecOnly fts vec hf hv j hj
    intro hmem
    exact hdisj _ hmem
      (List.mem_map_of_mem Post.post_id (List.get_mem vec j hj))

/-- Witness for C2: two disjoint one-element lists merge to total 2 and
the vector-only record scores 0.5 * 0.8. -/
theorem C2_disjoint_merge_witness :
    (merge_results [mkPost "p1" 0 none] [mkPost "p2" 0 (some 0.5)] 10 0).2 = 2
    ∧ (⟨mkPost "p2" 0 (some 0.5), none, some 0, (0.5 : ℚ) * 0.8⟩ : Merged) ∈
        mergeSorted [mkPost "p1" 0 none] [mkPost "p2" 0 (some 0.5)] := by
  have h := C2_disjoint_merge [mkPost "p1" 0 none] [mkPost "p2" 0 (some 0.5)]
    (by decide) (by decide) (by decide) 10 0
  exact ⟨h.1, h.2 0 (by decide)⟩

/-- Claim C3: for a merged set of size N, limit L and offset O, the
merger returns the slice [O, O+L) of the sorted union, hence exactly
min(L, N-O) records (truncated subtraction realizes max(0, N-O)); the
reported total is N whatever L and O are, and for positive L the
concatenation of the pages at offsets 0, L, 2L, ... rebuilds the whole
sorted union. -/
theorem C3_pagination (fts vec : List Post) (L O : Nat) :
    (merge_results fts vec L O).2 = (mergeSorted fts vec).length
    ∧ (merge_results fts vec L O).1 = ((mergeSorted fts vec).drop O).take L
    ∧ (merge_results fts vec L O).1.length =
        min L ((merge_results fts vec L O).2 - O)
    ∧ (0 < L →
        ((List.range (((mergeSorted fts vec).length + L - 1) / L)).map
            fun k => (merge_results fts vec L (k * L)).1).flatten =
          mergeSorted fts vec) := by
  refine ⟨rfl, rfl, ?_, ?_⟩
  · show (((mergeSorted fts vec).drop O).take L).length = _
    rw [List.length_take, List.length_drop]
    rfl
  · intro hL
    have h1 := flatten_take_pages (mergeSorted fts vec) L
      (((mergeSorted fts vec).length + L - 1) / L)
    rw [show (fun k => (merge_results fts vec L (k * L)).1) =
        (fun k => ((mergeSorted fts vec).drop (k * L)).take L) from rfl, h1]
    exact List.take_of_length_le (le_ceilDiv_mul _ _ hL)

/-- Witness for C3: with one record and page size 1, concatenating the
pages rebuilds the sorted union. -/
theorem C3_pagination_witness :
    (0 : Nat) < 1
    ∧ ((List.range (((mergeSorted [mkPost "p1" 0 none] []).length + 1 - 1)
          / 1)).map
        fun k => (merge_results [mkPost "p1" 0 none] [] 1 (k * 1)).1).flatten =
      mergeSorted [mkPost "p1" 0 none] [] :=
  ⟨by decide,
    (C3_pagination [mkPost "p1" 0 none] [] 1 0).2.2.2 (by decide)⟩

/-- Claim C10: a record id present in both inputs yields one merged entry
that keeps every field of the full-text version, with only its
similarity_score (overwritten by the vector hit's score) and its combined
score changed; it is the only entry carrying that id, so the remaining
fields of the vector version are discarded. -/
theorem C10_shared_frame (fts vec : List Post)
    (hf : (fts.map Post.post_id).Nodup)
    (hv : (vec.map Post.post_id).Nodup)
    (i j : Nat) (hi : i < fts.length) (hj : j < vec.length)
    (hid : (fts.get ⟨i, hi⟩).post_id = (vec.get ⟨j, hj⟩).post_id) :
    ∃ e ∈ mergeSorted fts vec,
      e.post = { fts.get ⟨i, hi⟩ with
                   similarity_score := some ((vec.get ⟨j, hj⟩).similarity_score.getD 0) }
      ∧ e.fts_rank = some i
      ∧ e.vector_rank = none
      ∧ e.combined_score =
          (1 / ((i : ℚ) + 1) +
            (vec.get ⟨j, hj⟩).similarity_score.getD 0) / 2
      ∧ ∀ e2 ∈ mergeSorted fts vec,
          e2.post.post_id = (fts.get ⟨i, hi⟩).post_id → e2 = e := by
  have hfind := mergeMap_find?_shared fts vec hf hv i j hi hj hid
  have hmem := mem_mergeSorted_of_find? hfind
  refine ⟨_, hmem, rfl, rfl, rfl, rfl, ?_⟩
  intro e2 he2 hkey
  exact mergeSorted_key_unique fts vec hf he2 hmem hkey

/-- Witness for C10 at the concrete fused record of the C1 witness. -/
theorem C10_shared_frame_witness :
    ∃ e ∈ mergeSorted [mkPost "p1" 0 none] [mkPost "p1" 0 (some 0.6)],
      e.post = { mkPost "p1" 0 none with similarity_score := some 0.6 }
      ∧ e.fts_rank = some 0 := by
  rcases C10_shared_frame [mkPost "p1" 0 none] [mkPost "p1" 0 (some 0.6)]
      (by decide) (by decide) 0 0 (by decide) (by decide) (by decide)
    with ⟨e, hmem, hpost, hfr, -, -, -⟩
  exact ⟨e, hmem, hpost, hfr⟩

/-- Claim C4: the normalizer strips the special characters to
whitespace, tokenizes, drops one-character and stopword tokens,
deduplicates keeping first occurrences, caps at 10 tokens and joins with
OR; it equals that pipeline stated the specification's way, and any input
whose tokens are all stopwords or single characters yields the
match-nothing sentinel. -/
theorem C4_normalizer (q : String) :
    prepare_fts_query q = normalizerSpec q
    ∧ ((∀ w ∈ pySplit (stripSpecial q.data),
          lowerStr w ∈ stopwords ∨ w.length ≤ 1) →
        prepare_fts_query q = "\"\"") := by
  constructor
  · unfold prepare_fts_query normalizerSpec
    cases hw : (pySplit (stripSpecial q.data)).filter keepToken with
    | nil => simp [dedupFirst]
    | cons x xs => simp [dedupFirst]
  · intro h
    unfold prepare_fts_query
    have hnil : (pySplit (stripSpecial q.data)).filter keepToken = [] := by
      rw [List.filter_eq_nil_iff]
      intro w hw
      simp only [keepToken, Bool.and_eq_true, decide_eq_true_eq, not_and]
      rintro ⟨-, hstop⟩ hlen
      rcases h w hw with h1 | h2
      · exact hstop h1
      · omega
    simp [hnil]

/-- Witness for C4: every token of "the a is" is a stopword or a single
character, so the sentinel expression comes back. -/
theorem C4_normalizer_witness :
    prepare_fts_query "the a is" = "\"\"" :=
  (C4_normalizer "the a is").2 (by decide)

/-- Claim C5: when the token-search engine reports an execution error the
searcher answers in the shape of a successful call from the substring
fallback: the rows are the substring matches of the original raw query
over content, AI description and author handle under the same filters,
sorted with likes standing in for relevance, the page is at most limit
long, and the reported total is the substring-match cardinality. -/
theorem C5_fts_fallback (corpus : List Post) (sq oq : String) (L O : Nat)
    (sb so : String) (a : Option String) (df dt : Option Int)
    (st : Option String) :
    (fts_search .err corpus sq oq L O sb so a df dt st).2 =
        (corpus.filter fun p =>
          likeMatch oq p && filterPred a df dt st p).length
    ∧ (fts_search .err corpus sq oq L O sb so a df dt st).1 =
        (((corpus.filter fun p =>
              likeMatch oq p && filterPred a df dt st p).mergeSort
            (orderComp (likeKeyLE sb) (isDesc so))).drop O).take L
    ∧ (fts_search .err corpus sq oq L O sb so a df dt st).1.length ≤ L
    ∧ (sb = "relevance" →
        (isDesc so = true →
          (fts_search .err corpus sq oq L O sb so a df dt st).1.Pairwise
            fun p r => r.likes ≤ p.likes)
        ∧ (isDesc so = false →
          (fts_search .err corpus sq oq L O sb so a df dt st).1.Pairwise
            fun p r => p.likes ≤ r.likes)) := by
  refine ⟨rfl, rfl, ?_, ?_⟩
  · show ((((corpus.filter _).mergeSort _).drop O).take L).length ≤ L
    rw [List.length_take]
    exact inf_le_left
  · rintro rfl
    have hp := like_search_pairwise corpus oq L O "relevance" so a df dt st
    constructor
    · intro hdesc
      refine hp.imp ?_
      intro p r hpr
      rw [hdesc] at hpr
      simpa [orderComp, likeKeyLE] using hpr
    · intro hdesc
      refine hp.imp ?_
      intro p r hpr
      rw [hdesc] at hpr
      simpa [orderComp, likeKeyLE] using hpr

/-- Witness for C5: on the demo corpus the fallback page under relevance
sort descending is ordered by likes descending. -/
theorem C5_fts_fallback_witness :
    (fts_search .err demoCorpus "q" "rust" 10 0 "relevance" "desc" none
        none none none).1.Pairwise fun p r => r.likes ≤ p.likes :=
  ((C5_fts_fallback demoCorpus "q" "rust" 10 0 "relevance" "desc" none
      none none none).2.2.2 rfl).1 (by decide)

/-- Claim C6: on a working engine, relevance sorts ascending by the
engine's bm25 score whatever direction the caller requested, while date,
likes, retweets and views honor the requested direction. -/
theorem C6_fts_sort_order (mP : String → Post → Bool) (bm : Post → ℚ)
    (corpus : List Post) (sq oq : String) (L O : Nat) (sb so : String)
    (a : Option String) (df dt : Option Int) (st : Option String) :
    (sb = "relevance" →
      (fts_search (.ok mP bm) corpus sq oq L O sb so a df dt st).1.Pairwise
        fun p r => bm p ≤ bm r)
    ∧ ((sb = "date" ∨ sb = "likes" ∨ sb = "retweets" ∨ sb = "views") →
      (isDesc so = true →
        (fts_search (.ok mP bm) corpus sq oq L O sb so a df dt
            st).1.Pairwise fun p r => ftsKeyLE sb bm r p = true)
      ∧ (isDesc so = false →
        (fts_search (.ok mP bm) corpus sq oq L O sb so a df dt
            st).1.Pairwise fun p r => ftsKeyLE sb bm p r = true)) := by
  have hp := fts_success_pairwise mP bm corpus sq oq L O sb so a df dt st
  constructor
  · rintro rfl
    refine hp.imp ?_
    intro p r hpr
    simpa [orderComp, ftsDesc, ftsKeyLE] using hpr
  · intro hsb
    have hne : sb ≠ "relevance" := by
      rcases hsb with rfl | rfl | rfl | rfl <;> decide
    have hdesc : ftsDesc sb so = isDesc so := by
      unfold ftsDesc
      rw [if_neg hne]
    constructor
    · intro hd
      refine hp.imp ?_
      intro p r hpr
      rw [hdesc, hd] at hpr
      simpa [orderComp] using hpr
    · intro hd
      refine hp.imp ?_
      intro p r hpr
      rw [hdesc, hd] at hpr
      simpa [orderComp] using hpr

/-- Witness for C6: sorting the demo corpus by likes ascending yields a
page ordered by the likes comparator. -/
theorem C6_fts_sort_order_witness :
    (fts_search (.ok matchAll bmZero) demoCorpus "q" "q" 5 0 "likes" "asc"
        none none none none).1.Pairwise
      fun p r => ftsKeyLE "likes" bmZero p r = true :=
  ((C6_fts_sort_order matchAll bmZero demoCorpus "q" "q" 5 0 "likes" "asc"
      none none none none).2 (Or.inr (Or.inl rfl))).2 (by decide)

/-- Claim C7: question answering searches with the internal argument
record (limit 15, summary off, enhancement on, hybrid mode and the other
defaults); on an empty result list it answers with the canned text and no
sources without consulting the answer collaborator, otherwise it returns
the collaborator's answer, the top five results as sources, and the
analysis from the search step. -/
theorem C7_answer_question {α : Type} (search : SearchArgs → SearchResponse α)
    (f g : String → List Post → String) (q : String) :
    ((search (qaArgs q)).results = [] →
      answer_question search f q =
        { question := q, answer := noRelevantAnswer, sources := [],
          query_analysis := (search (qaArgs q)).query_analysis }
      ∧ answer_question search f q = answer_question search g q)
    ∧ ((search (qaArgs q)).results ≠ [] →
      answer_question search f q =
        { question := q, answer := f q (search (qaArgs q)).results,
          sources := (search (qaArgs q)).results.take 5,
          query_analysis := (search (qaArgs q)).query_analysis }) := by
  have harg : ({ query := q, limit := 15, include_summary := false,
                 enhance_query := true } : SearchArgs) = qaArgs q := rfl
  constructor
  · intro h
    constructor
    · simp only [answer_question, harg, h, if_pos]
    · simp only [answer_question, harg, h, if_pos]
  · intro h
    simp only [answer_question, harg, if_neg h]

/-- Witness for C7: a search stub with no results forces the canned
answer, independently of the answer collaborator. -/
theorem C7_answer_question_witness :
    answer_question emptySearch ansA "who" =
      { question := "who", answer := noRelevantAnswer, sources := [],
        query_analysis := none }
    ∧ answer_question emptySearch ansA "who" =
        answer_question emptySearch ansB "who" :=
  (C7_answer_question emptySearch ansA ansB "who").1 rfl

/-- Claim C8, settled against the code: the newest-first order promised
for suggestions is not delivered; the rows are read newest first but the
set-based deduplication re-enumerates them in an arbitrary order, of
which the reversal below is one admissible instance, so the matches can
come back oldest first. -/
theorem C8_suggestions_order_bug :
    (∀ l : List String, (revEnum l).Perm l.dedup)
    ∧ get_suggestions revEnum demoLog "ap" 5 = ["apricot", "apple"]
    ∧ get_suggestions revEnum demoLog "ap" 5 ≠ ["apple", "apricot"] := by
  have hfilter : (demoLog.filter fun e =>
      likeContains "ap" e.original_query && decide (e.result_count > 0)) =
      demoLog := by decide
  have hsorted : demoLog.mergeSort
      (fun a b => decide (b.created_at ≤ a.created_at)) = demoLog :=
    List.mergeSort_of_sorted (by decide)
  have hval : get_suggestions revEnum demoLog "ap" 5 =
      ["apricot", "apple"] := by
    simp only [get_suggestions]
    rw [hfilter, hsorted]
    decide
  refine ⟨fun l => List.reverse_perm _, hval, ?_⟩
  rw [hval]
  decide

/-- Claim C9: cosine similarity of a non-zero vector with itself is 1,
and cosine similarity is symmetric in its two arguments. -/
theorem C9_cosine_props :
    (∀ v : List ℝ, (∃ x ∈ v, x ≠ 0) → cosine_similarity v v = 1)
    ∧ ∀ a b : List ℝ, cosine_similarity a b = cosine_similarity b a := by
  constructor
  · intro v hv
    have hpos := dotList_self_pos v hv
    unfold cosine_similarity normList
    rw [Real.mul_self_sqrt (le_of_lt hpos)]
    exact div_self (ne_of_gt hpos)
  · intro a b
    unfold cosine_similarity
    rw [dotList_comm a b, mul_comm]

/-- Witness for C9: the one-dimensional vector [1] has self-similarity
1. -/
theorem C9_cosine_props_witness :
    cosine_similarity [(1 : ℝ)] [(1 : ℝ)] = 1 :=
  C9_cosine_props.1 [(1 : ℝ)] ⟨1, by simp, one_ne_zero⟩

end XaiSearch
